import Mathlib

/-!
Verification development for the crabcrawl TUI web crawler
(`src/main.rs`).  Strings are modelled as `List Char`; the Rust `u16`
scroll offset is modelled as `Nat` with explicit saturation at 65535 and
explicit `% 65536` where the source casts `usize as u16`.  Lower-casing
is modelled per ASCII (`Char.toLower`), matching the source's use on the
ASCII inputs the claims concern.
-/

abbrev Str := List Char

/-- Model of Rust `str::to_lowercase` (ASCII restriction). -/
def toLowerStr (s : Str) : Str := s.map Char.toLower

/-- Boolean list-prefix test, used to define substring containment. -/
def isPrefixB : Str → Str → Bool
  | [], _ => true
  | _ :: _, [] => false
  | a :: as, b :: bs => a == b && isPrefixB as bs

/-- Model of Rust `str::contains(&str)`: substring containment. -/
def containsSubstr (hay needle : Str) : Bool :=
  if isPrefixB needle hay then true
  else
    match hay with
    | [] => false
    | _ :: t => containsSubstr t needle

/-- Model of Rust `Iterator::position`: index of the first element
satisfying the predicate. -/
def positionB (p : α → Bool) : List α → Option Nat
  | [] => none
  | a :: t => if p a then some 0 else (positionB p t).map (· + 1)

/-- Split a character list on a separator character, keeping empty
pieces (like Rust `str::split`). -/
def splitOnC (sep : Char) : Str → List Str
  | [] => [[]]
  | c :: rest =>
    if c == sep then [] :: splitOnC sep rest
    else
      match splitOnC sep rest with
      | [] => [[c]]
      | l :: ls => (c :: l) :: ls

/-- Strip at most one trailing carriage return, as Rust `str::lines`
does per line. -/
def stripCr (l : Str) : Str :=
  if l.getLast? == some '\r' then l.dropLast else l

/-- Model of Rust `str::lines`: split on newline, no trailing empty
line when the text ends with a newline, each line stripped of one
trailing carriage return. -/
def rustLines (s : Str) : List Str :=
  if s.isEmpty then []
  else
    let parts := splitOnC '\n' s
    let parts := if s.getLast? == some '\n' then parts.dropLast else parts
    parts.map stripCr

/-- Association-list model of `HashMap<String, String>`: lookup. -/
def lookupBT : List (Str × Str) → Str → Option Str
  | [], _ => none
  | (k', v) :: t, k => if k' == k then some v else lookupBT t k

/-- Association-list model of `HashMap::contains_key`. -/
def containsKeyBT (m : List (Str × Str)) (k : Str) : Bool :=
  (lookupBT m k).isSome

/-- Association-list model of `HashMap::insert` (overwrite on repeat
key; appended otherwise). -/
def insertBT : List (Str × Str) → Str → Str → List (Str × Str)
  | [], k, v => [(k, v)]
  | (k', v') :: t, k, v =>
    if k' == k then (k', v) :: t else (k', v') :: insertBT t k v

/-- The session state of `struct AppState` (src/main.rs lines 36-46).
`list_state.selected()` is modelled by the `selected` field; the
render-layer `content_area` rectangle is untouched by the claims and
omitted. -/
structure AppState where
  visited_urls : List Str
  body_texts : List (Str × Str)
  selected : Option Nat
  search_input : Str
  active_search_query : Str
  is_searching : Bool
  filtered_url_indices : List Nat
  content_scroll : Nat
deriving DecidableEq

/-- `AppState::new` (lines 49-61). -/
def AppState.new : AppState :=
  { visited_urls := [], body_texts := [], selected := none,
    search_input := [], active_search_query := [], is_searching := false,
    filtered_url_indices := [], content_scroll := 0 }

/-- `AppState::get_selected_original_index` (lines 120-125). -/
def get_selected_original_index (s : AppState) : Option Nat :=
  s.selected.bind fun i => s.filtered_url_indices[i]?

/-- `AppState::select_first_or_last` (lines 112-118). -/
def select_first_or_last (s : AppState) : AppState :=
  if !s.filtered_url_indices.isEmpty then { s with selected := some 0 }
  else { s with selected := none }

/-- The per-record filter test of `update_filtered_list` (lines 85-93):
keep a URL when the query is empty or its body text lower-cased
contains the lower-cased query. -/
def filterKeep (bodyTexts : List (Str × Str)) (query : Str) (url : Str) : Bool :=
  if query.isEmpty then true
  else
    match lookupBT bodyTexts url with
    | some body => containsSubstr (toLowerStr body) query
    | none => false

/-- `AppState::update_filtered_list` (lines 77-110): rebuild
`filtered_url_indices` by enumerate-filter-map, then restore or reset
the selection. -/
def update_filtered_list (s : AppState) : AppState :=
  let query := toLowerStr s.active_search_query
  let prev := get_selected_original_index s
  let filtered :=
    ((s.visited_urls.enum.filter fun p => filterKeep s.body_texts query p.2).map
      Prod.fst)
  let s' := { s with filtered_url_indices := filtered }
  match prev with
  | some originalIdx =>
    match positionB (fun idx => idx == originalIdx) filtered with
    | some newPos => { s' with selected := some newPos }
    | none => select_first_or_last s'
  | none => select_first_or_last s'

/-- `AppState::get_selected_content` (lines 134-138). -/
def get_selected_content (s : AppState) : Option Str :=
  (get_selected_original_index s).bind fun originalIdx =>
    s.visited_urls[originalIdx]?.bind fun url => lookupBT s.body_texts url

/-- `AppState::find_first_match_line` (lines 145-156); the source casts
the found `usize` line index to `u16` (`line_idx as u16`), modelled as
`% 65536`. -/
def find_first_match_line (s : AppState) : Option Nat :=
  if s.active_search_query.isEmpty then none
  else
    let queryLower := toLowerStr s.active_search_query
    (get_selected_content s).bind fun content =>
      (positionB (fun line => containsSubstr (toLowerStr line) queryLower)
        (rustLines content)).map fun lineIdx => lineIdx % 65536

/-- `AppState::reset_or_find_scroll` (lines 158-164). -/
def reset_or_find_scroll (s : AppState) : AppState :=
  if !s.active_search_query.isEmpty then
    { s with content_scroll := (find_first_match_line s).getD 0 }
  else
    { s with content_scroll := 0 }

/-- `AppState::add_crawl_result` (lines 64-75). -/
def add_crawl_result (s : AppState) (url body : Str) : AppState :=
  if !containsKeyBT s.body_texts url then
    let isFirstItem := s.visited_urls.isEmpty
    let s1 := { s with visited_urls := s.visited_urls ++ [url],
                       body_texts := insertBT s.body_texts url body }
    let s2 := update_filtered_list s1
    if isFirstItem && !s2.filtered_url_indices.isEmpty then
      reset_or_find_scroll { s2 with selected := some 0 }
    else s2
  else s

/-- `AppState::select_next` (lines 167-178): cyclic downward move, then
scroll retargeting. -/
def select_next (s : AppState) : AppState :=
  let len := s.filtered_url_indices.length
  if len = 0 then s
  else
    let i := match s.selected with
      | some i => (i + 1) % len
      | none => 0
    reset_or_find_scroll { s with selected := some i }

/-- `AppState::select_previous` (lines 180-197). -/
def select_previous (s : AppState) : AppState :=
  let len := s.filtered_url_indices.length
  if len = 0 then s
  else
    let i := match s.selected with
      | some i => if i = 0 then len - 1 else i - 1
      | none => 0
    reset_or_find_scroll { s with selected := some i }

/-- `AppState::start_search` (lines 210-213). -/
def start_search (s : AppState) : AppState :=
  { s with is_searching := true, search_input := s.active_search_query }

/-- `AppState::finalize_search` (lines 215-220). -/
def finalize_search (s : AppState) : AppState :=
  let s1 := { s with is_searching := false,
                     active_search_query := s.search_input }
  reset_or_find_scroll (update_filtered_list s1)

/-- `AppState::cancel_search` (lines 222-225). -/
def cancel_search (s : AppState) : AppState :=
  { s with is_searching := false, search_input := [] }

/-- `AppState::clear_search` (lines 227-233). -/
def clear_search (s : AppState) : AppState :=
  let s1 := { s with is_searching := false, search_input := [],
                     active_search_query := [] }
  { update_filtered_list s1 with content_scroll := 0 }

/-- `AppState::scroll_content_down` (lines 236-238): `u16`
`saturating_add`. -/
def scroll_content_down (s : AppState) (lines : Nat) : AppState :=
  { s with content_scroll :=
      if s.content_scroll + lines ≤ 65535 then s.content_scroll + lines
      else 65535 }

/-- `AppState::scroll_content_up` (lines 240-242): `u16`
`saturating_sub` (truncated subtraction). -/
def scroll_content_up (s : AppState) (lines : Nat) : AppState :=
  { s with content_scroll := s.content_scroll - lines }

/-!
Model of the external `url` crate operations used by `crawler_task`
(`Url::join`, `Url::domain`, `Url::to_string`), restricted to the
absolute http(s) URLs the program handles: scheme, host and path
segments (no query, fragment, port, userinfo or dot-segment
normalisation, none of which the claims exercise).  A host is stored
lower-cased; `hostIsDomain` is false for numeric (IP-address-like)
hosts, for which `Url::domain` returns `None`.  The serialised path is
a slash followed by the segments joined with slashes, so the root path
is the single empty segment.
-/

structure Url where
  scheme : Str
  host : Str
  hostIsDomain : Bool
  path : List Str
deriving DecidableEq

/-- `Url::domain`: the host when it is a registrable domain, `None`
for IP-address hosts. -/
def Url.domain (u : Url) : Option Str :=
  if u.hostIsDomain then some u.host else none

/-- `Url::to_string` for the modelled components. -/
def Url.toStr (u : Url) : Str :=
  u.scheme ++ [':', '/', '/'] ++ u.host ++ '/' :: List.intercalate ['/'] u.path

/-- Heuristic host classification of the model: a host made only of
digits and dots is treated as an IPv4 address (no registrable
domain). -/
def looksLikeIp (host : Str) : Bool :=
  host.all fun c => c.isDigit || c == '.'

/-- Parse the host-and-path part following `scheme://`; fails on an
empty host, as the `url` crate does for special schemes. -/
def parseHostPath (scheme rest : Str) : Option Url :=
  let host := rest.takeWhile fun c => !(c == '/')
  let tail := rest.dropWhile fun c => !(c == '/')
  if host.isEmpty then none
  else
    let hostL := toLowerStr host
    let path :=
      match tail with
      | [] => [[]]
      | _ :: r => splitOnC '/' r
    some ⟨scheme, hostL, !looksLikeIp hostL, path⟩

/-- Parse an absolute URL `scheme://host/path`; `none` when the input
has no scheme prefix. -/
def parseAbsolute (href : Str) : Option Url :=
  let scheme := href.takeWhile Char.isAlpha
  let rest := href.dropWhile Char.isAlpha
  if scheme.isEmpty then none
  else
    match rest with
    | ':' :: '/' :: '/' :: r => parseHostPath (toLowerStr scheme) r
    | _ => none

/-- `Url::join(href)` on a base URL: absolute references replace the
base; `//`-references keep the scheme; `/`-references keep scheme and
host; an empty reference gives the base back; other references merge
with the base path minus its last segment (RFC 3986 merge, without
dot-segment removal, which the claims do not exercise). -/
def Url.join (base : Url) (href : Str) : Option Url :=
  match parseAbsolute href with
  | some u => some u
  | none =>
    match href with
    | '/' :: '/' :: r => parseHostPath base.scheme r
    | '/' :: r => some { base with path := splitOnC '/' r }
    | [] => some base
    | _ => some { base with path := base.path.dropLast ++ splitOnC '/' href }

/-- The link-discovery loop of `crawler_task` (src/main.rs lines
292-310): for each anchor in order, an anchor with a present `href`
is resolved with `base_url.join(&href)`; a successfully resolved URL
whose `domain()` equals `base_domain` is appended to the queue unless
its string form is already visited or already queued. -/
def process_links (base_url : Url) (base_domain : Str)
    (links : List (Option Str)) (visited queue : List Str) : List Str :=
  match links with
  | [] => queue
  | link :: rest =>
    let queue' :=
      match link with
      | none => queue
      | some href =>
        match base_url.join href with
        | none => queue
        | some abs_url =>
          if (abs_url.domain.map fun d => d == base_domain).getD false then
            let absStr := abs_url.toStr
            if !visited.contains absStr && !queue.contains absStr then
              queue ++ [absStr]
            else queue
          else queue
    process_links base_url base_domain rest visited queue'

/-- Oracle for the external collaborators of one crawl iteration: the
WebDriver (navigation success, extracted body text with the sentinel
substitutions of lines 276-285 already folded in, anchor enumeration
where `none` stands for a `find_all` error) and the result channel
(`sendOk` false when the channel is closed). -/
structure Driver where
  navOk : Str → Bool
  bodyText : Str → Str
  links : Str → Option (List (Option Str))
  sendOk : Str → Bool

/-- The worker-visible crawl state: pending queue, visited set
(insertion order kept) and the results emitted on the channel. -/
structure CrawlState where
  queue : List Str
  visited : List Str
  emitted : List (Str × Str)
deriving DecidableEq

inductive StepResult where
  | stopped
  | continued (st : CrawlState)
deriving DecidableEq

/-- One iteration of the `while let Some(url)` loop of `crawler_task`
(lines 263-317): pop the front URL (none left stops the worker); skip
it when already visited; on navigation failure mark it visited and
continue; otherwise mark visited, emit the body text (a closed channel
stops the worker), and run link discovery. -/
def crawler_step (base_url : Url) (base_domain : Str) (d : Driver)
    (st : CrawlState) : StepResult :=
  match st.queue with
  | [] => .stopped
  | url :: rest =>
    if st.visited.contains url then
      .continued { st with queue := rest }
    else if !d.navOk url then
      .continued { queue := rest, visited := st.visited ++ [url],
                   emitted := st.emitted }
    else
      let visited' := st.visited ++ [url]
      if !d.sendOk url then .stopped
      else
        let emitted' := st.emitted ++ [(url, d.bodyText url)]
        let queue' :=
          match d.links url with
          | none => rest
          | some ls => process_links base_url base_domain ls visited' rest
        .continued { queue := queue', visited := visited', emitted := emitted' }

/-- Fuelled iteration of `crawler_step`. -/
def crawler_run (base_url : Url) (base_domain : Str) (d : Driver) :
    Nat → CrawlState → CrawlState
  | 0, st => st
  | n + 1, st =>
    match crawler_step base_url base_domain d st with
    | .stopped => st
    | .continued st' => crawler_run base_url base_domain d n st'

/-- Key codes of the crossterm events the dispatcher distinguishes. -/
inductive KeyCode where
  | enter
  | char (c : Char)
  | backspace
  | esc
  | down
  | up
  | pageDown
  | pageUp
  | other
deriving DecidableEq

/-- A key event: code plus whether the CONTROL modifier is held. -/
structure KeyEvent where
  code : KeyCode
  ctrl : Bool
deriving DecidableEq

/-- `enum AppControl` (lines 488-492). -/
inductive AppControl where
  | Continue
  | ExitCrawlerView
  | ExitApp
deriving DecidableEq

/-- `handle_key_input` (lines 495-542), returning the control signal
and the mutated state.  In the searching branch the source matches on
`key.code` alone, so modifiers are ignored there; in the normal branch
the guarded arms are mirrored in source order. -/
def handle_key_input (key : KeyEvent) (s : AppState) : AppControl × AppState :=
  if s.is_searching then
    match key.code with
    | .enter => (.Continue, finalize_search s)
    | .char c => (.Continue, { s with search_input := s.search_input ++ [c] })
    | .backspace => (.Continue, { s with search_input := s.search_input.dropLast })
    | .esc => (.Continue, cancel_search s)
    | _ => (.Continue, s)
  else
    match key.code with
    | .down => (.Continue, select_next s)
    | .up => (.Continue, select_previous s)
    | .pageDown => (.Continue, scroll_content_down s 3)
    | .pageUp => (.Continue, scroll_content_up s 3)
    | .esc =>
      (.Continue,
        if !s.active_search_query.isEmpty then clear_search s else s)
    | .char c =>
      if c == 'j' then (.Continue, select_next s)
      else if c == 'k' then (.Continue, select_previous s)
      else if c == 'd' && key.ctrl then (.Continue, scroll_content_down s 6)
      else if c == 'u' && key.ctrl then (.Continue, scroll_content_up s 6)
      else if c == '/' then (.Continue, start_search s)
      else if c == 'q' && key.ctrl then (.ExitApp, s)
      else if c == 'c' && key.ctrl then (.ExitCrawlerView, s)
      else (.Continue, s)
    | _ => (.Continue, s)

/-!
Spec-side definitions: restatements of the specification's words, to be
compared with the embedded source functions, plus the data needed for
concrete instances.
-/

/-- Spec-side filter test for record `i`: the body text of session
record `i` contains the lower-cased applied query as a case-insensitive
substring (an empty query matches everything). -/
def recordMatches (s : AppState) (i : Nat) : Bool :=
  s.active_search_query.isEmpty ||
    (match s.visited_urls[i]? with
     | some url =>
       match lookupBT s.body_texts url with
       | some body =>
         containsSubstr (toLowerStr body) (toLowerStr s.active_search_query)
       | none => false
     | none => false)

/-- Spec-side filter view: exactly the indices of matching session
records, in arrival order. -/
def filterViewSpec (s : AppState) : List Nat :=
  (List.range s.visited_urls.length).filter (recordMatches s)

/-- Indices, counted from `n`, of the elements satisfying `g`
(proof-side normal form of enumerate-filter-map). -/
def idxFilter (g : α → Bool) : Nat → List α → List Nat
  | _, [] => []
  | n, a :: t => if g a then n :: idxFilter g (n + 1) t else idxFilter g (n + 1) t

/-- Spec-side editing-mode dispatch rules: Enter confirms the search,
a character key appends to the edit buffer (modifiers ignored),
Backspace deletes, Escape cancels, every other key is ignored. -/
def editingStep (key : KeyEvent) (s : AppState) : AppState :=
  match key.code with
  | .enter => finalize_search s
  | .char c => { s with search_input := s.search_input ++ [c] }
  | .backspace => { s with search_input := s.search_input.dropLast }
  | .esc => cancel_search s
  | _ => s

/-- Spec-side frontier contract `enqueueIfNew` (spec section 4.1): add
unless already visited or already queued. -/
def enqueueIfNew (visited queue : List Str) (u : Str) : List Str :=
  if visited.contains u || queue.contains u then queue else queue ++ [u]

/-- Spec-side link discovery, resolving each href against the given
base and calling `enqueueIfNew` exactly for resolved URLs whose domain
equals the given root domain; missing and malformed hrefs skipped. -/
def processLinksSpec (base : Url) (rootDomain : Str)
    (links : List (Option Str)) (visited queue : List Str) : List Str :=
  match links with
  | [] => queue
  | link :: rest =>
    processLinksSpec base rootDomain rest visited
      (match link with
       | none => queue
       | some href =>
         match base.join href with
         | none => queue
         | some abs_url =>
           if abs_url.domain == some rootDomain then
             enqueueIfNew visited queue abs_url.toStr
           else queue)

/-- Spec-side first-match line: the true (un-truncated) 0-based index
of the first line of the selected record's body text containing the
applied query case-insensitively. -/
def firstMatchLineSpec (s : AppState) : Option Nat :=
  (get_selected_content s).bind fun content =>
    positionB
      (fun line =>
        containsSubstr (toLowerStr line) (toLowerStr s.active_search_query))
      (rustLines content)

/-- The session-state invariants of the spec's data model: the filter
view is strictly increasing and references existing records, and the
selection is a valid filter-view position exactly when the view is
non-empty. -/
def SessionInv (s : AppState) : Prop :=
  List.Chain' (· < ·) s.filtered_url_indices ∧
  (∀ i ∈ s.filtered_url_indices, i < s.visited_urls.length) ∧
  (match s.selected with
   | some j => j < s.filtered_url_indices.length
   | none => s.filtered_url_indices = [])

/-- The session-state operations enumerated by the invariant claim. -/
inductive AppOp where
  | record (url body : Str)
  | recompute
  | confirmSearch
  | cancelSearchEdit
  | clearSearchOp
  | next
  | prev
  | scrollDn (n : Nat)
  | scrollUpOp (n : Nat)

/-- Interpretation of an `AppOp` as the corresponding `AppState`
method. -/
def applyOp : AppOp → AppState → AppState
  | .record u b, s => add_crawl_result s u b
  | .recompute, s => update_filtered_list s
  | .confirmSearch, s => finalize_search s
  | .cancelSearchEdit, s => cancel_search s
  | .clearSearchOp, s => clear_search s
  | .next, s => select_next s
  | .prev, s => select_previous s
  | .scrollDn n, s => scroll_content_down s n
  | .scrollUpOp n, s => scroll_content_up s n

/-- A body text of `n` lines reading `a` followed by a final line
reading `q`. -/
def manyAN : Nat → Str
  | 0 => ['q']
  | n + 1 => 'a' :: '\n' :: manyAN n

/-- The crawl root `http://x.com/`. -/
def urlRootX : Url := ⟨"http".toList, "x.com".toList, true, [[]]⟩

/-- The page `http://x.com/dir/page`. -/
def urlPageX : Url :=
  ⟨"http".toList, "x.com".toList, true, ["dir".toList, "page".toList]⟩

/-- A crawl root whose host is an IP address: `http://127.0.0.1/`. -/
def urlIpBase : Url := ⟨"http".toList, "127.0.0.1".toList, false, [[]]⟩

/-- Driver oracle for the page-relative-link instance: every page
carries the single anchor `about`. -/
def pageDriver : Driver :=
  ⟨fun _ => true, fun _ => "body".toList,
   fun _ => some [some "about".toList], fun _ => true⟩

/-- Driver oracle whose pages carry an external link, a local absolute
link and an anchor with no href. -/
def ipDriver : Driver :=
  ⟨fun _ => true, fun _ => "hello".toList,
   fun _ => some [some "http://x.com/y".toList, some "/local".toList, none],
   fun _ => true⟩

/-- Driver oracle whose navigation always fails. -/
def failNavDriver : Driver :=
  ⟨fun _ => false, fun _ => [], fun _ => some [], fun _ => true⟩

/-- A crawl state with two pending URLs and nothing visited. -/
def exCrawlState : CrawlState :=
  ⟨["http://x.com/a".toList, "http://x.com/b".toList], [], []⟩

/-- A session state in search-editing mode with edit buffer `he`. -/
def editState : AppState :=
  { AppState.new with is_searching := true, search_input := "he".toList }

/-- Two records and an empty applied query. -/
def emptyQState : AppState :=
  { AppState.new with
      visited_urls := [['a'], ['b']],
      body_texts := [(['a'], "x".toList), (['b'], "y".toList)] }

/-- Three records, applied query `x`, third record selected; only the
third record's body contains `x`. -/
def selState : AppState :=
  { visited_urls := [['a'], ['b'], ['c']],
    body_texts := [(['a'], "foo".toList), (['b'], "bar".toList),
                   (['c'], "xoo".toList)],
    selected := some 2, search_input := [],
    active_search_query := ['x'], is_searching := false,
    filtered_url_indices := [0, 1, 2], content_scroll := 0 }

/-- One selected record whose second line matches the applied query
`y`. -/
def scrollWState : AppState :=
  { visited_urls := [['u']],
    body_texts := [(['u'], "abc\nxyz".toList)],
    selected := some 0, search_input := [],
    active_search_query := ['y'], is_searching := false,
    filtered_url_indices := [0], content_scroll := 9 }

/-- One selected record whose body has `n` non-matching lines before
the single line matching the applied query `q`. -/
def bigScrollStateN (n : Nat) : AppState :=
  { visited_urls := [['u']],
    body_texts := [(['u'], manyAN n)],
    selected := some 0, search_input := [],
    active_search_query := ['q'], is_searching := false,
    filtered_url_indices := [0], content_scroll := 7 }

/-- The instance with 65536 non-matching lines before the match. -/
def bigScrollState : AppState := bigScrollStateN 65536

/-- A session state whose scroll offset sits at the `u16` maximum. -/
def capScrollState : AppState :=
  { AppState.new with content_scroll := 65535 }

/-- A crawl state whose queue, visited set and emissions mention only
the root URL string. -/
def onlyRoot (root : Str) (st : CrawlState) : Prop :=
  (∀ u ∈ st.visited, u = root) ∧ (∀ u ∈ st.queue, u = root) ∧
  (∀ p ∈ st.emitted, p.1 = root)

theorem rofs_body (s : AppState) :
    (reset_or_find_scroll s).body_texts = s.body_texts := by
  unfold reset_or_find_scroll; split <;> rfl

theorem rofs_urls (s : AppState) :
    (reset_or_find_scroll s).visited_urls = s.visited_urls := by
  unfold reset_or_find_scroll; split <;> rfl

theorem rofs_filtered (s : AppState) :
    (reset_or_find_scroll s).filtered_url_indices = s.filtered_url_indices := by
  unfold reset_or_find_scroll; split <;> rfl

theorem rofs_selected (s : AppState) :
    (reset_or_find_scroll s).selected = s.selected := by
  unfold reset_or_find_scroll; split <;> rfl

theorem update_body (s : AppState) :
    (update_filtered_list s).body_texts = s.body_texts := by
  simp only [update_filtered_list]
  split
  · split
    · rfl
    · simp only [select_first_or_last]; split <;> rfl
  · simp only [select_first_or_last]; split <;> rfl

theorem update_urls (s : AppState) :
    (update_filtered_list s).visited_urls = s.visited_urls := by
  simp only [update_filtered_list]
  split
  · split
    · rfl
    · simp only [select_first_or_last]; split <;> rfl
  · simp only [select_first_or_last]; split <;> rfl

theorem update_filtered (s : AppState) :
    (update_filtered_list s).filtered_url_indices
      = ((s.visited_urls.enum.filter fun p =>
            filterKeep s.body_texts (toLowerStr s.active_search_query) p.2).map
          Prod.fst) := by
  simp only [update_filtered_list]
  split
  · split
    · rfl
    · simp only [select_first_or_last]; split <;> rfl
  · simp only [select_first_or_last]; split <;> rfl

theorem containsKey_insertBT (m : List (Str × Str)) (k v : Str) :
    containsKeyBT (insertBT m k v) k = true := by
  induction m with
  | nil => simp [insertBT, containsKeyBT, lookupBT]
  | cons p t ih =>
    obtain ⟨k', v'⟩ := p
    by_cases hk : (k' == k) = true
    · simp [insertBT, hk, containsKeyBT, lookupBT]
    · rw [Bool.not_eq_true] at hk
      simpa [insertBT, hk, containsKeyBT, lookupBT] using ih

theorem add_noop (s : AppState) (u t : Str)
    (h : containsKeyBT s.body_texts u = true) : add_crawl_result s u t = s := by
  unfold add_crawl_result; simp [h]

theorem add_body_of_new (s : AppState) (u t : Str)
    (h : containsKeyBT s.body_texts u = false) :
    (add_crawl_result s u t).body_texts = insertBT s.body_texts u t := by
  unfold add_crawl_result
  simp only [h, Bool.not_false, if_true]
  split <;> simp [rofs_body, update_body]

/-- Claim C5: recording a result for a URL that is already recorded is
a no-op, so recording `(u, t)` and then `(u, t')` leaves the whole
session state exactly as after recording `(u, t)` once. -/
theorem record_result_idempotent (s : AppState) (u t t' : Str) :
    add_crawl_result (add_crawl_result s u t) u t' = add_crawl_result s u t := by
  by_cases h : containsKeyBT s.body_texts u = true
  · rw [add_noop s u t h, add_noop s u t' h]
  · rw [Bool.not_eq_true] at h
    have h2 : containsKeyBT (add_crawl_result s u t).body_texts u = true := by
      rw [add_body_of_new s u t h]; exact containsKey_insertBT s.body_texts u t
    exact add_noop _ u t' h2

/-- Claim C7: when navigation to the dequeued URL fails, the worker
marks it visited, emits nothing, and continues with the rest of the
queue — the step result is `continued`, never `stopped`. -/
theorem nav_failure_nonfatal (base_url : Url) (base_domain : Str) (d : Driver)
    (st : CrawlState) (url : Str) (rest : List Str)
    (hq : st.queue = url :: rest) (hv : st.visited.contains url = false)
    (hn : d.navOk url = false) :
    crawler_step base_url base_domain d st
      = .continued ⟨rest, st.visited ++ [url], st.emitted⟩ := by
  unfold crawler_step
  rw [hq]
  have hv' : url ∉ st.visited := by simpa using hv
  simp [hv', hn]

theorem nav_failure_nonfatal_witness :
    crawler_step urlRootX [] failNavDriver exCrawlState
      = .continued ⟨["http://x.com/b".toList], ["http://x.com/a".toList], []⟩ :=
  nav_failure_nonfatal urlRootX [] failNavDriver exCrawlState
    ("http://x.com/a".toList) ["http://x.com/b".toList] rfl rfl rfl

/-- Claim C9 (amended): scrolling down is addition saturating at the
`u16` maximum 65535 and scrolling up is subtraction saturating at 0, so
the offset stays within the 16-bit range. -/
theorem scroll_saturating (s : AppState) (lines : Nat) :
    ((scroll_content_down s lines).content_scroll : Int)
      = min ((s.content_scroll : Int) + (lines : Int)) 65535 ∧
    ((scroll_content_up s lines).content_scroll : Int)
      = max ((s.content_scroll : Int) - (lines : Int)) 0 := by
  unfold scroll_content_down scroll_content_up
  refine ⟨?_, ?_⟩
  · show (((if s.content_scroll + lines ≤ 65535 then s.content_scroll + lines
        else 65535) : Nat) : Int) = _
    split <;> omega
  · show ((s.content_scroll - lines : Nat) : Int) = _
    omega

/-- Claim C9 counterexample: at offset 65535 a downward scroll is
capped at 65535, so the session state does enforce an upper bound — the
result is not the plain sum. -/
theorem scroll_upper_bound_enforced :
    (scroll_content_down capScrollState 3).content_scroll = 65535 ∧
    (scroll_content_down capScrollState 3).content_scroll
      ≠ capScrollState.content_scroll + 3 := by decide

/-- Claim C1 (amended): in search-editing mode every key, including the
quit and back control combinations, is handled by the editing rules
(Enter confirms, a character key appends with modifiers ignored,
Backspace deletes, Escape cancels, others are ignored) and the
dispatcher always returns the continue signal. -/
theorem editing_mode_all_keys (key : KeyEvent) (s : AppState)
    (h : s.is_searching = true) :
    handle_key_input key s = (AppControl.Continue, editingStep key s) := by
  unfold handle_key_input editingStep
  rw [h]
  cases key.code <;> rfl

theorem editing_mode_all_keys_witness :
    handle_key_input ⟨KeyCode.enter, false⟩ editState
      = (AppControl.Continue, editingStep ⟨KeyCode.enter, false⟩ editState) :=
  editing_mode_all_keys ⟨KeyCode.enter, false⟩ editState rfl

/-- Claim C1 counterexample: while editing a search query, Ctrl+Q is
consumed as buffer input (the character `q` is appended to the edit
buffer) and the dispatcher returns the continue signal, not the
exit-application signal. -/
theorem ctrlq_appended_in_editing :
    handle_key_input ⟨KeyCode.char 'q', true⟩ editState
        = (AppControl.Continue, { editState with search_input := "heq".toList }) ∧
    (handle_key_input ⟨KeyCode.char 'q', true⟩ editState).1
      ≠ AppControl.ExitApp := by decide

theorem domain_cond_eq (u : Url) (bd : Str) :
    ((u.domain.map fun d => d == bd).getD false) = (u.domain == some bd) := by
  cases u.domain <;> rfl

/-- Claim C2 (amended): the worker's link discovery resolves each
present href against the crawl root URL (not the current page URL) and
enqueues, via the spec's `enqueueIfNew`, exactly the resolved URLs
whose domain equals the root domain; missing or malformed hrefs are
skipped without error. -/
theorem link_discovery_matches_spec (base : Url) (bd : Str)
    (links : List (Option Str)) (visited queue : List Str) :
    process_links base bd links visited queue
      = processLinksSpec base bd links visited queue := by
  induction links generalizing queue with
  | nil => rfl
  | cons l rest ih =>
    unfold process_links processLinksSpec
    cases l with
    | none => exact ih queue
    | some href =>
      cases hj : base.join href with
      | none => simp only [hj]; exact ih queue
      | some abs_url =>
        simp only [hj, domain_cond_eq]
        by_cases hd : (abs_url.domain == some bd) = true
        · simp only [hd, if_true]
          cases hv : visited.contains abs_url.toStr <;>
            cases hq : queue.contains abs_url.toStr <;>
              simp only [enqueueIfNew, hv, hq, Bool.not_true, Bool.not_false,
                Bool.false_and, Bool.true_and, Bool.and_false, Bool.and_true,
                Bool.or_self, Bool.false_or, Bool.true_or, Bool.or_true,
                Bool.or_false, if_true, if_false] <;> exact ih _
        · rw [Bool.not_eq_true] at hd
          simp only [hd, if_false]
          exact ih queue

/-- Claim C2 counterexample: processing page `http://x.com/dir/page`
(crawl root `http://x.com/`) with the single relative anchor `about`,
the worker enqueues `http://x.com/about` — the href resolved against
the crawl root — whereas resolution against the current page URL would
give `http://x.com/dir/about`. -/
theorem relative_link_resolved_against_root :
    crawler_step urlRootX ((urlRootX.domain).getD []) pageDriver
        ⟨["http://x.com/dir/page".toList], [], []⟩
      = .continued ⟨["http://x.com/about".toList],
          ["http://x.com/dir/page".toList],
          [("http://x.com/dir/page".toList, "body".toList)]⟩ ∧
    (urlPageX.join "about".toList).map Url.toStr
      = some "http://x.com/dir/about".toList ∧
    ("http://x.com/about".toList : Str) ≠ "http://x.com/dir/about".toList := by
  refine ⟨by decide, by decide, by decide⟩

theorem parseHostPath_no_empty_domain (sch r : Str) (u : Url)
    (h : parseHostPath sch r = some u) :
    (u.domain.map fun d => d == ([] : Str)).getD false = false := by
  unfold parseHostPath at h
  by_cases he : (r.takeWhile fun c => !(c == '/')).isEmpty = true
  · simp [he] at h
  · rw [Bool.not_eq_true] at he
    simp only [he, Bool.false_eq_true, if_false, Option.some.injEq] at h
    subst h
    simp only [Url.domain]
    by_cases hip : looksLikeIp (toLowerStr (r.takeWhile fun c => !(c == '/'))) = true
    · simp [hip]
    · rw [Bool.not_eq_true] at hip
      simp only [hip, Bool.not_false, if_true]
      show ((toLowerStr (r.takeWhile fun c => !(c == '/'))) == ([] : Str)) = false
      cases hh : (r.takeWhile fun c => !(c == '/')) with
      | nil => rw [hh] at he; simp at he
      | cons a t => rfl

theorem join_no_empty_domain (base : Url) (hb : base.domain = none)
    (href : Str) (u : Url) (h : base.join href = some u) :
    (u.domain.map fun d => d == ([] : Str)).getD false = false := by
  have hbd : base.hostIsDomain = false := by
    by_cases hd : base.hostIsDomain = true
    · rw [Url.domain, if_pos hd] at hb; cases hb
    · rw [Bool.not_eq_true] at hd; exact hd
  unfold Url.join at h
  cases hp : parseAbsolute href with
  | some v =>
    simp only [hp, Option.some.injEq] at h
    subst h
    unfold parseAbsolute at hp
    by_cases hs : (href.takeWhile Char.isAlpha).isEmpty = true
    · simp [hs] at hp
    · rw [Bool.not_eq_true] at hs
      simp only [hs, Bool.false_eq_true, if_false] at hp
      split at hp
      · exact parseHostPath_no_empty_domain _ _ _ hp
      · cases hp
  | none =>
    simp only [hp] at h
    split at h
    · exact parseHostPath_no_empty_domain _ _ _ h
    · simp only [Option.some.injEq] at h
      subst h
      simp [Url.domain, hbd]
    · simp only [Option.some.injEq] at h
      subst h
      simp [Url.domain, hbd]
    · simp only [Option.some.injEq] at h
      subst h
      simp [Url.domain, hbd]

theorem process_links_empty_domain (base : Url) (hb : base.domain = none) :
    ∀ (links : List (Option Str)) (visited queue : List Str),
      process_links base [] links visited queue = queue := by
  intro links
  induction links with
  | nil => intro _ _; rfl
  | cons l rest ih =>
    intro visited queue
    unfold process_links
    cases l with
    | none => exact ih visited queue
    | some href =>
      cases hj : base.join href with
      | none => simp only [hj]; exact ih visited queue
      | some abs_url =>
        simp only [hj, join_no_empty_domain base hb href abs_url hj,
          Bool.false_eq_true, if_false]
        exact ih visited queue

theorem crawler_step_only_root (base : Url) (hb : base.domain = none)
    (d : Driver) (st : CrawlState) (h : onlyRoot base.toStr st) :
    crawler_step base (base.domain.getD []) d st = .stopped ∨
      ∃ st', crawler_step base (base.domain.getD []) d st = .continued st' ∧
        onlyRoot base.toStr st' := by
  obtain ⟨hvis, hque, hemi⟩ := h
  have hbd0 : base.domain.getD [] = ([] : Str) := by rw [hb]; rfl
  cases hq : st.queue with
  | nil =>
    left
    unfold crawler_step
    rw [hq]
  | cons url rest =>
    have hurl : url = base.toStr := hque url (hq ▸ List.mem_cons_self url rest)
    have hrest : ∀ u ∈ rest, u = base.toStr := fun u hu =>
      hque u (hq ▸ List.mem_cons_of_mem url hu)
    by_cases hcv : st.visited.contains url = true
    · have hcv2 : url ∈ st.visited := by simpa using hcv
      right
      refine ⟨{ st with queue := rest }, ?_, hvis, hrest, hemi⟩
      unfold crawler_step
      rw [hq]
      simp [hcv2]
    · rw [Bool.not_eq_true] at hcv
      have hcv2 : url ∉ st.visited := by simpa using hcv
      have hvis' : ∀ u ∈ st.visited ++ [url], u = base.toStr := by
        intro u hu
        rcases List.mem_append.mp hu with hu | hu
        · exact hvis u hu
        · rw [List.mem_singleton.mp hu]; exact hurl
      by_cases hnav : d.navOk url = true
      · by_cases hsend : d.sendOk url = true
        · have hkey : (match d.links url with
              | none => rest
              | some ls =>
                process_links base (base.domain.getD []) ls
                  (st.visited ++ [url]) rest) = rest := by
            cases hl : d.links url with
            | none => rfl
            | some ls =>
              rw [hbd0]
              exact process_links_empty_domain base hb ls (st.visited ++ [url]) rest
          have hemi' : ∀ p ∈ st.emitted ++ [(url, d.bodyText url)],
              p.1 = base.toStr := by
            intro p hp
            rcases List.mem_append.mp hp with hp | hp
            · exact hemi p hp
            · rw [List.mem_singleton.mp hp]; exact hurl
          right
          refine ⟨⟨rest, st.visited ++ [url],
            st.emitted ++ [(url, d.bodyText url)]⟩, ?_, hvis', hrest, hemi'⟩
          unfold crawler_step
          rw [hq]
          simp [hcv2, hnav, hsend, hkey]
        · rw [Bool.not_eq_true] at hsend
          left
          unfold crawler_step
          rw [hq]
          simp [hcv2, hnav, hsend]
      · rw [Bool.not_eq_true] at hnav
        right
        refine ⟨⟨rest, st.visited ++ [url], st.emitted⟩, ?_, hvis', hrest, hemi⟩
        unfold crawler_step
        rw [hq]
        simp [hcv2, hnav]

theorem crawler_run_only_root (base : Url) (hb : base.domain = none)
    (d : Driver) : ∀ (n : Nat) (st : CrawlState), onlyRoot base.toStr st →
      onlyRoot base.toStr (crawler_run base (base.domain.getD []) d n st) := by
  intro n
  induction n with
  | zero => intro st h; exact h
  | succ n ih =>
    intro st h
    unfold crawler_run
    rcases crawler_step_only_root base hb d st h with hs | ⟨st', hs, h'⟩
    · rw [hs]; exact h
    · rw [hs]; exact ih st' h'

/-- Claim C10: when the crawl root URL has no registrable domain, the
domain-equality test rejects every resolved link, so for any driver
behaviour and any number of iterations the queue, the visited set and
the emitted results of the worker never mention anything but the root
URL. -/
theorem ip_root_crawls_nothing (base : Url) (d : Driver) (n : Nat)
    (hb : base.domain = none) :
    onlyRoot base.toStr
      (crawler_run base (base.domain.getD []) d n ⟨[base.toStr], [], []⟩) := by
  apply crawler_run_only_root base hb d n
  refine ⟨fun u hu => absurd hu (List.not_mem_nil u), fun u hu => ?_,
    fun p hp => absurd hp (List.not_mem_nil p)⟩
  exact List.mem_singleton.mp hu

theorem ip_root_crawls_nothing_witness :
    onlyRoot urlIpBase.toStr
      (crawler_run urlIpBase ((urlIpBase.domain).getD []) ipDriver 5
        ⟨[urlIpBase.toStr], [], []⟩) :=
  ip_root_crawls_nothing urlIpBase ipDriver 5 rfl

theorem enumFrom_filter_map (g : α → Bool) :
    ∀ (l : List α) (n : Nat),
      ((List.enumFrom n l).filter fun p => g p.2).map Prod.fst
        = idxFilter g n l := by
  intro l
  induction l with
  | nil => intro n; rfl
  | cons a t ih =>
    intro n
    show (((n, a) :: List.enumFrom (n + 1) t).filter fun p => g p.2).map
        Prod.fst = idxFilter g n (a :: t)
    rw [List.filter_cons]
    by_cases hg : g a = true
    · simp only [hg, if_true, List.map_cons, idxFilter, ih]
    · rw [Bool.not_eq_true] at hg
      simp only [hg, Bool.false_eq_true, if_false, idxFilter, ih]

theorem idxFilter_eq_range_filter (g : α → Bool) :
    ∀ (l : List α) (n : Nat) (q : Nat → Bool),
      (∀ k (hk : k < l.length), q (n + k) = g (l.get ⟨k, hk⟩)) →
      idxFilter g n l = (List.range' n l.length).filter q := by
  intro l
  induction l with
  | nil => intro n q _; rfl
  | cons a t ih =>
    intro n q h
    have h0 : q n = g a := by simpa using h 0 (Nat.succ_pos t.length)
    have ht : idxFilter g (n + 1) t = (List.range' (n + 1) t.length).filter q := by
      apply ih
      intro k hk
      have hs := h (k + 1) (Nat.succ_lt_succ hk)
      have he : n + (k + 1) = n + 1 + k := by omega
      rw [he] at hs
      exact hs
    show idxFilter g n (a :: t) = (n :: List.range' (n + 1) t.length).filter q
    rw [List.filter_cons, h0]
    by_cases hg : g a = true
    · simp only [hg, if_true, idxFilter, ht]
    · rw [Bool.not_eq_true] at hg
      simp only [hg, Bool.false_eq_true, if_false, idxFilter, ht]

theorem toLowerStr_isEmpty (s : Str) :
    (toLowerStr s).isEmpty = s.isEmpty := by
  cases s <;> rfl

theorem update_filtered_eq (s : AppState) :
    (update_filtered_list s).filtered_url_indices = filterViewSpec s := by
  rw [update_filtered]
  rw [show s.visited_urls.enum = List.enumFrom 0 s.visited_urls from rfl]
  rw [enumFrom_filter_map]
  unfold filterViewSpec
  rw [List.range_eq_range']
  apply idxFilter_eq_range_filter
  intro k hk
  show recordMatches s (0 + k)
      = filterKeep s.body_texts (toLowerStr s.active_search_query)
          (s.visited_urls.get ⟨k, hk⟩)
  rw [Nat.zero_add]
  unfold recordMatches filterKeep
  rw [List.getElem?_eq_getElem hk, toLowerStr_isEmpty]
  by_cases hq : s.active_search_query.isEmpty = true
  · simp [hq]
  · rw [Bool.not_eq_true] at hq
    simp only [hq, Bool.false_eq_true, if_false, Bool.false_or]
    rfl

/-- Claim C3: for every session state, recomputing the filter view
yields exactly the indices of the records whose body text contains the
lower-cased applied query as a case-insensitive substring, in arrival
order; an empty applied query yields every record index in arrival
order. -/
theorem filter_view_exact (s : AppState) :
    (update_filtered_list s).filtered_url_indices = filterViewSpec s ∧
    (s.active_search_query = [] →
      (update_filtered_list s).filtered_url_indices
        = List.range s.visited_urls.length) := by
  refine ⟨update_filtered_eq s, fun h => ?_⟩
  rw [update_filtered_eq s]
  unfold filterViewSpec
  apply List.filter_eq_self.mpr
  intro a _
  unfold recordMatches
  rw [h]
  rfl

theorem filter_view_exact_witness :
    (update_filtered_list emptyQState).filtered_url_indices
      = List.range emptyQState.visited_urls.length :=
  (filter_view_exact emptyQState).2 rfl

theorem positionB_of_mem (i : Nat) :
    ∀ (l : List Nat), i ∈ l →
      ∃ p, positionB (fun x => x == i) l = some p ∧ l[p]? = some i := by
  intro l
  induction l with
  | nil => intro h; cases h
  | cons a t ih =>
    intro h
    by_cases ha : (a == i) = true
    · refine ⟨0, by simp [positionB, ha], ?_⟩
      have : a = i := by simpa using ha
      simp [this]
    · rw [Bool.not_eq_true] at ha
      have hat : i ∈ t := by
        cases h with
        | head => simp at ha
        | tail _ h2 => exact h2
      obtain ⟨p, hp, hg⟩ := ih hat
      refine ⟨p + 1, ?_, by simpa using hg⟩
      simp [positionB, ha, hp]
    
theorem positionB_of_not_mem (i : Nat) :
    ∀ (l : List Nat), i ∉ l → positionB (fun x => x == i) l = none := by
  intro l
  induction l with
  | nil => intro _; rfl
  | cons a t ih =>
    intro h
    have ha : (a == i) = false := by
      simp only [beq_eq_false_iff_ne]
      intro hcon
      exact h (hcon ▸ List.mem_cons_self a t)
    have ht : i ∉ t := fun hin => h (List.mem_cons_of_mem a hin)
    simp [positionB, ha, ih ht]

theorem update_selected_found (s : AppState) (i p : Nat)
    (hprev : get_selected_original_index s = some i)
    (hp : positionB (fun idx => idx == i)
        (update_filtered_list s).filtered_url_indices = some p) :
    (update_filtered_list s).selected = some p := by
  rw [update_filtered] at hp
  simp only [update_filtered_list]
  simp only [hprev, hp]

theorem sfol_selected (s : AppState) :
    (select_first_or_last s).selected
      = if s.filtered_url_indices.isEmpty then none else some 0 := by
  unfold select_first_or_last
  cases h : s.filtered_url_indices.isEmpty <;> simp [h]

theorem update_selected_none (s : AppState)
    (hprev : get_selected_original_index s = none) :
    (update_filtered_list s).selected
      = if (update_filtered_list s).filtered_url_indices.isEmpty then none
        else some 0 := by
  rw [update_filtered]
  simp only [update_filtered_list]
  simp only [hprev, sfol_selected]

theorem update_selected_lost (s : AppState) (i : Nat)
    (hprev : get_selected_original_index s = some i)
    (hp : positionB (fun idx => idx == i)
        (update_filtered_list s).filtered_url_indices = none) :
    (update_filtered_list s).selected
      = if (update_filtered_list s).filtered_url_indices.isEmpty then none
        else some 0 := by
  rw [update_filtered] at hp
  rw [update_filtered]
  simp only [update_filtered_list]
  simp only [hprev, hp, sfol_selected]

/-- Claim C4: after the filter view is recomputed, a previously
selected record that still matches the new query is re-selected at its
new position; otherwise the selection falls back to position 0 when
the new filter view is non-empty and to none when it is empty. -/
theorem selection_stability (s : AppState) :
    (∀ i, get_selected_original_index s = some i →
        i ∈ filterViewSpec s →
        ∃ p, (update_filtered_list s).selected = some p ∧
          (update_filtered_list s).filtered_url_indices[p]? = some i) ∧
    ((∀ i, get_selected_original_index s = some i → i ∉ filterViewSpec s) →
      (update_filtered_list s).selected
        = if filterViewSpec s = [] then none else some 0) := by
  have hFs : (update_filtered_list s).filtered_url_indices = filterViewSpec s :=
    update_filtered_eq s
  constructor
  · intro i hprev hmem
    rw [← hFs] at hmem
    obtain ⟨p, hp, hg⟩ := positionB_of_mem i _ hmem
    exact ⟨p, update_selected_found s i p hprev hp, hg⟩
  · intro hno
    cases hprev : get_selected_original_index s with
    | none =>
      rw [update_selected_none s hprev, hFs]
      by_cases he : filterViewSpec s = [] <;> simp [he]
    | some i =>
      have hni : i ∉ filterViewSpec s := hno i hprev
      rw [← hFs] at hni
      rw [update_selected_lost s i hprev (positionB_of_not_mem i _ hni), hFs]
      by_cases he : filterViewSpec s = [] <;> simp [he]

theorem selection_stability_witness :
    ∃ p, (update_filtered_list selState).selected = some p ∧
      (update_filtered_list selState).filtered_url_indices[p]? = some 2 :=
  (selection_stability selState).1 2 (by decide) (by decide)

theorem idxFilter_bounds (g : α → Bool) :
    ∀ (l : List α) (n : Nat), ∀ i ∈ idxFilter g n l, n ≤ i ∧ i < n + l.length := by
  intro l
  induction l with
  | nil => intro n i hi; simp [idxFilter] at hi
  | cons a t ih =>
    intro n i hi
    unfold idxFilter at hi
    rw [List.length_cons]
    by_cases hg : g a = true
    · rw [if_pos hg] at hi
      cases hi with
      | head => constructor <;> omega
      | tail _ h2 =>
        have := ih (n + 1) i h2
        constructor <;> omega
    · rw [if_neg hg] at hi
      have := ih (n + 1) i hi
      constructor <;> omega

theorem idxFilter_chain (g : α → Bool) :
    ∀ (l : List α) (n : Nat), List.Chain' (· < ·) (idxFilter g n l) := by
  intro l
  induction l with
  | nil => intro n; exact List.chain'_nil
  | cons a t ih =>
    intro n
    unfold idxFilter
    by_cases hg : g a = true
    · rw [if_pos hg]
      apply List.chain'_cons'.mpr
      refine ⟨fun y hy => ?_, ih (n + 1)⟩
      have hmem : y ∈ idxFilter g (n + 1) t := List.mem_of_mem_head? hy
      have := (idxFilter_bounds g t (n + 1) y hmem).1
      omega
    · rw [if_neg hg]; exact ih (n + 1)

theorem positionB_lt (p : α → Bool) :
    ∀ (l : List α) (k : Nat), positionB p l = some k → k < l.length := by
  intro l
  induction l with
  | nil => intro k h; cases h
  | cons a t ih =>
    intro k h
    unfold positionB at h
    rw [List.length_cons]
    by_cases hp : p a = true
    · rw [if_pos hp] at h
      have : k = 0 := by simpa using h.symm
      omega
    · rw [if_neg hp] at h
      cases hq : positionB p t with
      | none => rw [hq] at h; cases h
      | some j =>
        rw [hq] at h
        have hk : j + 1 = k := by simpa using h
        have := ih j hq
        omega

theorem sessionInv_update (s : AppState) :
    SessionInv (update_filtered_list s) := by
  have hfil : (update_filtered_list s).filtered_url_indices
      = idxFilter
          (filterKeep s.body_texts (toLowerStr s.active_search_query)) 0
          s.visited_urls := by
    rw [update_filtered]
    rw [show s.visited_urls.enum = List.enumFrom 0 s.visited_urls from rfl]
    exact enumFrom_filter_map _ _ _
  refine ⟨?_, ?_, ?_⟩
  · rw [hfil]; exact idxFilter_chain _ _ _
  · intro i hi
    rw [hfil] at hi
    have := (idxFilter_bounds _ _ _ i hi).2
    rw [update_urls]
    omega
  · cases hprev : get_selected_original_index s with
    | some oi =>
      cases hpos : positionB (fun idx => idx == oi)
          (update_filtered_list s).filtered_url_indices with
      | some p =>
        rw [update_selected_found s oi p hprev hpos]
        exact positionB_lt _ _ p hpos
      | none =>
        have hsel := update_selected_lost s oi hprev hpos
        cases he : (update_filtered_list s).filtered_url_indices.isEmpty with
        | true =>
          rw [he] at hsel
          simp only [if_true] at hsel
          rw [hsel]
          exact List.isEmpty_iff.mp he
        | false =>
          rw [he] at hsel
          simp only [Bool.false_eq_true, if_false] at hsel
          rw [hsel]
          refine List.length_pos.mpr ?_
          intro hcon
          rw [hcon] at he
          simp at he
    | none =>
      have hsel := update_selected_none s hprev
      cases he : (update_filtered_list s).filtered_url_indices.isEmpty with
      | true =>
        rw [he] at hsel
        simp only [if_true] at hsel
        rw [hsel]
        exact List.isEmpty_iff.mp he
      | false =>
        rw [he] at hsel
        simp only [Bool.false_eq_true, if_false] at hsel
        rw [hsel]
        refine List.length_pos.mpr ?_
        intro hcon
        rw [hcon] at he
        simp at he

theorem sessionInv_ext (s t : AppState)
    (h1 : t.filtered_url_indices = s.filtered_url_indices)
    (h2 : t.visited_urls = s.visited_urls)
    (h3 : t.selected = s.selected) (h : SessionInv s) : SessionInv t := by
  unfold SessionInv at h ⊢
  rw [h1, h2, h3]
  exact h

theorem sessionInv_rofs (s : AppState) (h : SessionInv s) :
    SessionInv (reset_or_find_scroll s) :=
  sessionInv_ext s (reset_or_find_scroll s) (rofs_filtered s) (rofs_urls s)
    (rofs_selected s) h

/-- Claim C6: every session-state operation — recording a result,
recomputing the filter, confirming, cancelling or clearing a search,
selecting next or previous, and scrolling — preserves the invariants
that the filter view is strictly increasing, references only existing
records, and that the selection is a valid filter-view position exactly
when the view is non-empty. -/
theorem session_ops_preserve (op : AppOp) (s : AppState)
    (h : SessionInv s) : SessionInv (applyOp op s) := by
  cases op with
  | record u b =>
    show SessionInv (add_crawl_result s u b)
    unfold add_crawl_result
    by_cases hc : containsKeyBT s.body_texts u = true
    · simp only [hc, Bool.not_true, Bool.false_eq_true, if_false]
      exact h
    · rw [Bool.not_eq_true] at hc
      simp only [hc, Bool.not_false, if_true]
      split
      · next hcond =>
        apply sessionInv_rofs
        refine ⟨(sessionInv_update _).1, (sessionInv_update _).2.1, ?_⟩
        refine List.length_pos.mpr ?_
        simp only [Bool.and_eq_true] at hcond
        simpa using hcond.2
      · exact sessionInv_update _
  | recompute => exact sessionInv_update s
  | confirmSearch =>
    show SessionInv (finalize_search s)
    unfold finalize_search
    exact sessionInv_rofs _ (sessionInv_update _)
  | cancelSearchEdit => exact sessionInv_ext s (cancel_search s) rfl rfl rfl h
  | clearSearchOp =>
    show SessionInv (clear_search s)
    unfold clear_search
    exact sessionInv_ext _ _ rfl rfl rfl (sessionInv_update _)
  | next =>
    show SessionInv (select_next s)
    simp only [select_next]
    by_cases hlen : s.filtered_url_indices.length = 0
    · rw [if_pos hlen]; exact h
    · rw [if_neg hlen]
      apply sessionInv_rofs
      obtain ⟨hch, hbd, hsel⟩ := h
      refine ⟨hch, hbd, ?_⟩
      cases hs : s.selected with
      | some j =>
        show (j + 1) % s.filtered_url_indices.length
            < s.filtered_url_indices.length
        exact Nat.mod_lt _ (Nat.pos_of_ne_zero hlen)
      | none =>
        show 0 < s.filtered_url_indices.length
        exact Nat.pos_of_ne_zero hlen
  | prev =>
    show SessionInv (select_previous s)
    simp only [select_previous]
    by_cases hlen : s.filtered_url_indices.length = 0
    · rw [if_pos hlen]; exact h
    · rw [if_neg hlen]
      apply sessionInv_rofs
      obtain ⟨hch, hbd, hsel⟩ := h
      refine ⟨hch, hbd, ?_⟩
      cases hs : s.selected with
      | some j =>
        rw [hs] at hsel
        have hj : j < s.filtered_url_indices.length := hsel
        show (if j = 0 then s.filtered_url_indices.length - 1 else j - 1)
            < s.filtered_url_indices.length
        split <;> omega
      | none =>
        show 0 < s.filtered_url_indices.length
        exact Nat.pos_of_ne_zero hlen
  | scrollDn n => exact sessionInv_ext s _ rfl rfl rfl h
  | scrollUpOp n => exact sessionInv_ext s _ rfl rfl rfl h

theorem session_ops_preserve_witness :
    SessionInv (applyOp (AppOp.record ['u'] "hi".toList) AppState.new) :=
  session_ops_preserve (AppOp.record ['u'] "hi".toList) AppState.new
    ⟨List.chain'_nil, by simp [AppState.new], rfl⟩

/-- Claim C8 (amended): for a session state with a selected record, a
non-empty applied query sets the scroll offset to the 0-based index of
the first matching line reduced modulo 65536 (the index is cast into
the 16-bit offset), or to 0 when no line matches; an empty applied
query resets the offset to 0. -/
theorem scroll_retarget (s : AppState) (c : Str)
    (hc : get_selected_content s = some c) :
    (s.active_search_query ≠ [] →
      (reset_or_find_scroll s).content_scroll
        = ((firstMatchLineSpec s).map fun i => i % 65536).getD 0) ∧
    (s.active_search_query = [] →
      (reset_or_find_scroll s).content_scroll = 0) := by
  constructor
  · intro hq
    have hqe : s.active_search_query.isEmpty = false := by
      cases hh : s.active_search_query
      · exact absurd hh hq
      · rfl
    simp only [reset_or_find_scroll, hqe, Bool.not_false, if_true]
    simp only [find_first_match_line, firstMatchLineSpec, hqe,
      Bool.false_eq_true, if_false, hc, Option.some_bind]
  · intro hq
    have hqe : s.active_search_query.isEmpty = true := by rw [hq]; rfl
    simp only [reset_or_find_scroll, hqe, Bool.not_true, Bool.false_eq_true,
      if_false]

theorem scroll_retarget_witness :
    (reset_or_find_scroll scrollWState).content_scroll
      = ((firstMatchLineSpec scrollWState).map fun i => i % 65536).getD 0 ∧
    (reset_or_find_scroll scrollWState).content_scroll = 1 :=
  ⟨(scroll_retarget scrollWState ("abc\nxyz".toList) (by decide)).1 (by decide),
    by decide⟩

theorem manyAN_concat : ∀ n : Nat, ∃ l : Str, manyAN n = l ++ ['q'] := by
  intro n
  induction n with
  | zero => exact ⟨[], rfl⟩
  | succ n ih =>
    obtain ⟨l, hl⟩ := ih
    refine ⟨'a' :: '\n' :: l, ?_⟩
    show 'a' :: '\n' :: manyAN n = _
    rw [hl]
    rfl

theorem manyAN_ends_q (n : Nat) : (manyAN n).getLast? = some 'q' := by
  obtain ⟨l, hl⟩ := manyAN_concat n
  rw [hl]
  exact List.getLast?_concat l

theorem manyAN_ne_nil (n : Nat) : manyAN n ≠ [] := by
  obtain ⟨l, hl⟩ := manyAN_concat n
  rw [hl]
  simp

theorem splitOnC_manyAN : ∀ n : Nat,
    splitOnC '\n' (manyAN n) = List.replicate n ['a'] ++ [['q']] := by
  intro n
  induction n with
  | zero => rfl
  | succ n ih =>
    have h1 : splitOnC '\n' (manyAN (n + 1))
        = ('a' :: []) :: splitOnC '\n' (manyAN n) := rfl
    rw [h1, ih]
    rfl

theorem rustLines_manyAN (n : Nat) :
    rustLines (manyAN n) = List.replicate n ['a'] ++ [['q']] := by
  have hne : (manyAN n).isEmpty = false := by
    cases hh : manyAN n
    · exact absurd hh (manyAN_ne_nil n)
    · rfl
  have hlast : ((manyAN n).getLast? == some '\n') = false := by
    rw [manyAN_ends_q n]; rfl
  simp only [rustLines, hne, Bool.false_eq_true, if_false, hlast,
    splitOnC_manyAN n]
  rw [List.map_append, List.map_replicate]
  rfl

theorem positionB_replicate_concat (p : Str → Bool) (x y : Str)
    (hx : p x = false) (hy : p y = true) :
    ∀ n : Nat, positionB p (List.replicate n x ++ [y]) = some n := by
  intro n
  induction n with
  | zero => simp [positionB, hy]
  | succ n ih =>
    rw [List.replicate_succ, List.cons_append]
    simp [positionB, hx, ih]

theorem scroll_truncated_general (n : Nat) :
    (reset_or_find_scroll (bigScrollStateN n)).content_scroll = n % 65536 ∧
    firstMatchLineSpec (bigScrollStateN n) = some n := by
  have hsel : get_selected_content (bigScrollStateN n) = some (manyAN n) := rfl
  have hq : (bigScrollStateN n).active_search_query = ['q'] := rfl
  have hpos : positionB
      (fun line => containsSubstr (toLowerStr line) (toLowerStr ['q']))
      (rustLines (manyAN n)) = some n := by
    rw [rustLines_manyAN]
    exact positionB_replicate_concat _ ['a'] ['q'] (by decide) (by decide) n
  have hspec : firstMatchLineSpec (bigScrollStateN n) = some n := by
    simp only [firstMatchLineSpec, hsel, hq]
    exact hpos
  have hff : find_first_match_line (bigScrollStateN n) = some (n % 65536) := by
    simp only [find_first_match_line, hsel, hq,
      show (['q'] : Str).isEmpty = false from rfl, Bool.false_eq_true, if_false]
    show ((positionB
        (fun line => containsSubstr (toLowerStr line) (toLowerStr ['q']))
        (rustLines (manyAN n))).map fun lineIdx => lineIdx % 65536)
        = some (n % 65536)
    rw [hpos]
    rfl
  refine ⟨?_, hspec⟩
  simp only [reset_or_find_scroll, hq,
    show (['q'] : Str).isEmpty = false from rfl, Bool.not_false, if_true, hff,
    Option.getD_some]

/-- Claim C8 counterexample: with a selected 65537-line body whose only
matching line has index 65536, the query `q` yields a scroll offset of
0 (the index is truncated by the cast to `u16`), not the first-match
index 65536 the claim requires. -/
theorem scroll_truncated_at_u16 :
    (reset_or_find_scroll bigScrollState).content_scroll = 0 ∧
    firstMatchLineSpec bigScrollState = some 65536 := by
  obtain ⟨h1, h2⟩ := scroll_truncated_general 65536
  constructor
  · show (reset_or_find_scroll (bigScrollStateN 65536)).content_scroll = 0
    rw [h1]
  · exact h2
